import Mathlib

/-!
Verification of the momentum-portfolio tracker (`fetch_stock_data.py`).

The source program is embedded shallowly:

* Market prices are modelled as exact rationals (`ℚ`).  Python's `round(x, n)`
  is modelled by `roundTo n` (round half away handled by `round`, i.e. half-up;
  Python uses banker's rounding at exact half-way points, a case no value in
  this development hits).
* Python `dict`s (the `scan_by_t` and `qualifying` lookups, and the holdings
  map of the portfolio state) are modelled as insertion-ordered association
  lists, with last-write-wins values and first-insertion key order, exactly as
  CPython dictionaries behave.
* The data-fetch layer (`yfinance`, retries, resampling) is external to the
  claims; the Signal Evaluator is modelled on the weekly close series the
  resampler hands to `calc_macd`, and the Market Regime Gate on the benchmark
  close series, with a fetch error modelled as an `Except.error`.
* `inception_date` / `last_run` are bookkeeping fields written outside
  `run_portfolio`; they are not part of the embedded state.
-/

/-- Models Python's `round(x, n)`: round to `n` decimal places. -/
def roundTo (n : ℕ) (x : ℚ) : ℚ := (round (x * 10 ^ n) : ℤ) / 10 ^ n

/-- Last element of a rationals list, `0` for `[]` (used only on nonempty lists,
mirroring `series.iloc[-1]`). -/
def last0 (l : List ℚ) : ℚ := l.getLast?.getD 0

-- ── Strategy constants (source: `fetch_stock_data.py`, "Strategy constants") ──

def STARTING_NAV : ℚ := 100000
def MAX_POSITIONS : ℕ := 20
def MIN_STOCKS : ℕ := 10
def EMA_FAST : ℕ := 12
def EMA_SLOW : ℕ := 26
def EMA_SIG : ℕ := 9
def MARKET_EMA_FAST : ℕ := 10
def MARKET_EMA_SLOW : ℕ := 20

-- ── Exponential moving average (pandas `ewm(span, adjust=False).mean()`) ─────

/-- Recursive EMA tail: `ema[i] = α·x[i] + (1-α)·ema[i-1]`. -/
def ewmAux (a : ℚ) (prev : ℚ) : List ℚ → List ℚ
  | [] => []
  | x :: xs => (a * x + (1 - a) * prev) :: ewmAux a (a * x + (1 - a) * prev) xs

/-- `series.ewm(span=span, adjust=False).mean()`: `ema[0] = x[0]`,
`α = 2/(span+1)`. -/
def ewmList (span : ℕ) : List ℚ → List ℚ
  | [] => []
  | x :: xs => x :: ewmAux (2 / ((span : ℚ) + 1)) x xs

/-- `calc_macd`: fast EMA, slow EMA, macd = fast − slow, signal = EMA of macd,
hist = macd − signal. -/
def calc_macd (series : List ℚ) : List ℚ × List ℚ × List ℚ × List ℚ × List ℚ :=
  let ema_f := ewmList EMA_FAST series
  let ema_s := ewmList EMA_SLOW series
  let macd := List.zipWith (· - ·) ema_f ema_s
  let sig := ewmList EMA_SIG macd
  let hist := List.zipWith (· - ·) macd sig
  (ema_f, ema_s, macd, sig, hist)

-- ── Signal records (the per-ticker dicts produced by `get_stock_data`) ───────

/-- One per-instrument scan record, as returned by `get_stock_data`.  Absent
dict keys are `none`. -/
structure SignalRecord where
  ticker : String
  name : String
  region : String
  weekly_close : Option ℚ := none
  ema12 : Option ℚ := none
  ema26 : Option ℚ := none
  macd : Option ℚ := none
  signal : Option ℚ := none
  hist : Option ℚ := none
  rank_score : Option ℚ := none
  momentum : Bool := false
  status : String
deriving DecidableEq

/-- `get_stock_data`, modelled on the weekly close series produced by the
external fetch/resample layer (`df["Close"].resample("W-FRI").last().dropna()`;
with no missing closes, `df.empty` iff this series is empty). -/
def get_stock_data (ticker name region : String) (weekly : List ℚ) : SignalRecord :=
  let base : SignalRecord := { ticker := ticker, name := name, region := region,
                               momentum := false, status := "" }
  if weekly.isEmpty then { base with status := "no_data" }
  else if weekly.length < EMA_SLOW + EMA_SIG then
    { base with
      weekly_close := weekly.getLast?.map (fun c => roundTo 4 c),
      status := "insufficient_history" }
  else
    let m := calc_macd weekly
    let close := roundTo 4 (last0 weekly)
    let e12 := roundTo 4 (last0 m.1)
    let e26 := roundTo 4 (last0 m.2.1)
    let macd_v := roundTo 4 (last0 m.2.2.1)
    let sig_v := roundTo 4 (last0 m.2.2.2.1)
    let hist_v := roundTo 4 (last0 m.2.2.2.2)
    -- Signal: MACD > 0 AND Hist > 0
    let momentum := decide (0 < macd_v) && decide (0 < hist_v)
    -- Ranking score: Hist / Close
    let rank_score := if close ≠ 0 then roundTo 6 (hist_v / close) else 0
    { base with
      weekly_close := some close,
      ema12 := some e12, ema26 := some e26,
      macd := some macd_v, signal := some sig_v, hist := some hist_v,
      rank_score := some rank_score,
      momentum := momentum,
      status := "ok" }

-- ── Market regime gate (`get_market_trend`) ──────────────────────────────────

/-- The dict returned by `get_market_trend`. -/
structure MarketTrend where
  ticker : String := "^GSPC"
  ema10 : Option ℚ := none
  ema20 : Option ℚ := none
  risk_on : Bool := false
  status : String := "unknown"
deriving DecidableEq

/-- `get_market_trend`: the benchmark close series, or the message of the
exception raised while fetching/computing it. -/
def get_market_trend (fetch : Except String (List ℚ)) : MarketTrend :=
  let base : MarketTrend := {}
  match fetch with
  | .error e => { base with status := "error: " ++ e }
  | .ok close =>
    if close.isEmpty then { base with status := "no_data" }
    else if close.length < MARKET_EMA_SLOW then { base with status := "insufficient_history" }
    else
      let ema10 := last0 (ewmList MARKET_EMA_FAST close)
      let ema20 := last0 (ewmList MARKET_EMA_SLOW close)
      { base with
        ema10 := some (roundTo 4 ema10), ema20 := some (roundTo 4 ema20),
        risk_on := decide (ema20 ≤ ema10),
        status := "ok" }

-- ── Portfolio state ──────────────────────────────────────────────────────────

/-- One holding (`state["holdings"][ticker]`). -/
structure Position where
  entry_price : ℚ
  entry_date : String
  name : String
  region : String
  cost_basis : ℚ
  rank_score_at_entry : ℚ
deriving DecidableEq

/-- The persisted portfolio state.  The holdings dict is an insertion-ordered
association list (ticker → position). -/
structure PortfolioState where
  holdings : List (String × Position)
  cash : ℚ
  nav : ℚ
  in_cash : Bool
deriving DecidableEq

/-- The default state created by `load_state` when no file exists. -/
def initialState : PortfolioState :=
  { holdings := [], cash := STARTING_NAV, nav := STARTING_NAV, in_cash := false }

-- ── Scan lookup (`scan_by_t = {r["ticker"]: r for r in scan_results}`) ───────

/-- Dict lookup on `scan_by_t`: the value is the last record with this ticker
(dict comprehension = last write wins). -/
def dictFind (scan : List SignalRecord) (t : String) : Option SignalRecord :=
  scan.foldl (fun acc r => if r.ticker = t then some r else acc) none

/-- The price used for a held instrument:
`scan_by_t[t]["weekly_close"] if t in scan_by_t and scan_by_t[t].get("weekly_close") else pos["entry_price"]`.
Python truthiness: a present but zero close is falsy and falls back to the
entry price.  The same expression appears in `mark_to_market` (lines 233-235)
and both sell loops (lines 311-313 and 338-340). -/
def currentPx (scan : List SignalRecord) (t : String) (entry : ℚ) : ℚ :=
  match dictFind scan t with
  | some r =>
    match r.weekly_close with
    | some c => if c ≠ 0 then c else entry
    | none => entry
  | none => entry

/-- `mark_to_market`: cash + Σ (current_price / entry_price) × cost_basis over
the holdings (the loop accumulates exactly this sum). -/
def mark_to_market (state : PortfolioState) (scan : List SignalRecord) : ℚ :=
  state.cash +
    (state.holdings.map (fun x =>
      currentPx scan x.1 x.2.entry_price / x.2.entry_price * x.2.cost_basis)).sum

-- ── Trade log (`record_trade`) ───────────────────────────────────────────────

/-- One trade-log row.  `none` models the empty CSV cell written for a Python
`None`. -/
structure TradeRecord where
  date : String
  ticker : String
  name : String
  action : String
  price : ℚ
  cost_basis : Option ℚ
  realized_pnl_pct : Option ℚ
  reason : String
deriving DecidableEq

/-- `record_trade`: append one row, rounding price to 4, cost basis to 4 and
realized P&L to 2 decimals. -/
def record_trade (tdf : List TradeRecord) (run_date ticker name action : String)
    (price : ℚ) (cost_basis : Option ℚ) (pnl_pct : Option ℚ) (reason : String) :
    List TradeRecord :=
  tdf ++ [{ date := run_date, ticker := ticker, name := name, action := action,
            price := roundTo 4 price,
            cost_basis := cost_basis.map (fun c => roundTo 4 c),
            realized_pnl_pct := pnl_pct.map (fun p => roundTo 2 p),
            reason := reason }]

-- ── Qualifying set ───────────────────────────────────────────────────────────

/-- The comprehension filter building `qualifying`:
`r.get("momentum") and r.get("status") == "ok" and r.get("weekly_close") is not None`. -/
def qualPred (r : SignalRecord) : Bool :=
  r.momentum && r.status == "ok" && r.weekly_close.isSome

/-- Insert one record into an insertion-ordered dict keyed by ticker: an
existing key keeps its position and gets the new value, a new key is
appended. -/
def dictInsertSR (d : List SignalRecord) (r : SignalRecord) : List SignalRecord :=
  if d.any (fun x => x.ticker == r.ticker) then
    d.map (fun x => if x.ticker == r.ticker then r else x)
  else d ++ [r]

/-- The `qualifying` dict (values in key-insertion order):
`{r["ticker"]: r for r in scan_results if ...}`. -/
def qualifyingList (scan : List SignalRecord) : List SignalRecord :=
  (scan.filter qualPred).foldl dictInsertSR []

/-- `t in qualifying`. -/
def qMem (scan : List SignalRecord) (t : String) : Bool :=
  (qualifyingList scan).any (fun r => r.ticker == t)

/-- `q_count = len(qualifying)`. -/
def q_countOf (scan : List SignalRecord) : ℕ := (qualifyingList scan).length

-- ── Portfolio engine (`run_portfolio`) ───────────────────────────────────────

/-- Result of one engine pass: the mutated state, the grown trade log, and the
qualifying count that `run_portfolio` returns. -/
structure RunResult where
  state : PortfolioState
  trades : List TradeRecord
  q_count : ℕ
deriving DecidableEq

/-- `to_sell = [t for t in list(holdings) if t not in qualifying]` together
with the popped positions, in holdings order. -/
def toSellOf (s : PortfolioState) (scan : List SignalRecord) : List (String × Position) :=
  s.holdings.filter (fun x => !(qMem scan x.1))

/-- The holdings surviving the signal-off exits, in their original order
(dict pops keep the remaining entries in place). -/
def holdings2Of (s : PortfolioState) (scan : List SignalRecord) : List (String × Position) :=
  s.holdings.filter (fun x => qMem scan x.1)

/-- One sell loop (lines 309-322 / 336-348): for each position, compute the
sell price by the shared pricing rule, credit `(px/entry)·cost_basis` to cash
and append a SELL row carrying the entry price in the cost-basis column. -/
def sellPass (scan : List SignalRecord) (rd reason : String) :
    List (String × Position) → ℚ → List TradeRecord → ℚ × List TradeRecord
  | [], cash, tdf => (cash, tdf)
  | x :: xs, cash, tdf =>
    let pos := x.2
    let sell_px := currentPx scan x.1 pos.entry_price
    let pnl_pct := (sell_px / pos.entry_price - 1) * 100
    sellPass scan rd reason xs (cash + sell_px / pos.entry_price * pos.cost_basis)
      (record_trade tdf rd x.1 pos.name "SELL" sell_px (some pos.entry_price)
        (some pnl_pct) reason)

/-- The `gate_reasons` list (risk gates, lines 328-332);
`f"qualifying_lt_{MIN_STOCKS}"` with `MIN_STOCKS = 10`. -/
def gateList (q_count : ℕ) (mt : MarketTrend) : List String :=
  (if q_count < MIN_STOCKS then ["qualifying_lt_10"] else []) ++
  (if !mt.risk_on then ["sp500_ema10_below_ema20"] else [])

/-- `candidates = [r for r in qualifying.values() if r["ticker"] not in holdings]`. -/
def candidatesOf (scan : List SignalRecord) (h2 : List (String × Position)) :
    List SignalRecord :=
  (qualifyingList scan).filter (fun r => !(h2.any (fun x => x.1 == r.ticker)))

/-- The rank key used by `candidates.sort(key=..., reverse=True)`:
`r.get("rank_score", 0)`. -/
def rankKey (r : SignalRecord) : ℚ := r.rank_score.getD 0

/-- Insert into a descending-sorted list, before the first element whose key is
not larger (so an earlier-seen record stays ahead of equal keys). -/
def insertRank (r : SignalRecord) : List SignalRecord → List SignalRecord
  | [] => [r]
  | y :: ys => if rankKey y ≤ rankKey r then r :: y :: ys else y :: insertRank r ys

/-- Stable sort by rank score descending.  Python's `list.sort` is a stable
sort; any two stable sorts under the same key agree, so this insertion sort
computes exactly the list the source sorts. -/
def sortByRankDesc : List SignalRecord → List SignalRecord
  | [] => []
  | r :: rs => insertRank r (sortByRankDesc rs)

/-- The new position created for a filled candidate (lines 391-398). -/
def mkPosition (rd : String) (cost_basis : ℚ) (r : SignalRecord) : Position :=
  { entry_price := r.weekly_close.getD 0, entry_date := rd, name := r.name,
    region := r.region, cost_basis := cost_basis,
    rank_score_at_entry := r.rank_score.getD 0 }

/-- Dict assignment `holdings[t] = pos`. -/
def hInsert (h : List (String × Position)) (t : String) (p : Position) :
    List (String × Position) :=
  if h.any (fun x => x.1 == t) then h.map (fun x => if x.1 == t then (t, p) else x)
  else h ++ [(t, p)]

/-- The buy loop `for idx, r in enumerate(candidates[:slots])` (lines 386-407):
create the position, debit cash by the rounded entry size, append a BUY row
with `cost_basis=None`, `pnl_pct=None` and reason `rank_{idx+1}_of_{n_cand}`. -/
def buyPass (rd : String) (entry_size : ℚ) (n_cand : ℕ) :
    ℕ → List SignalRecord →
    List (String × Position) × ℚ × List TradeRecord →
    List (String × Position) × ℚ × List TradeRecord
  | _, [], acc => acc
  | idx, r :: rs, (h, c, tdf) =>
    let cost_basis := roundTo 4 entry_size
    buyPass rd entry_size n_cand (idx + 1) rs
      (hInsert h r.ticker (mkPosition rd cost_basis r),
       c - cost_basis,
       record_trade tdf rd r.ticker r.name "BUY" (r.weekly_close.getD 0) none none
         ("rank_" ++ toString (idx + 1) ++ "_of_" ++ toString n_cand))

/-- Steps 4-6 of the engine: spare-capacity check, candidate ranking, slot
count, equal-dollar entry sizing, the buy loop, and the final re-mark. -/
def entryPhase (scan : List SignalRecord) (rd : String)
    (h2 : List (String × Position)) (cash2 : ℚ) (tdf2 : List TradeRecord)
    (nav2 : ℚ) (q_count : ℕ) : RunResult :=
  if (MAX_POSITIONS : ℤ) - (h2.length : ℤ) ≤ 0 then
    ⟨⟨h2, cash2, nav2, false⟩, tdf2, q_count⟩
  else
    let cands := candidatesOf scan h2
    let slots := min ((MAX_POSITIONS : ℤ) - (h2.length : ℤ)).toNat cands.length
    if slots = 0 then ⟨⟨h2, cash2, nav2, false⟩, tdf2, q_count⟩
    else
      -- Entry size: NAV ÷ total holdings after all buys complete
      let entry_size := nav2 / ((h2.length + slots : ℕ) : ℚ)
      let fin := buyPass rd entry_size cands.length 0
        ((sortByRankDesc cands).take slots) (h2, cash2, tdf2)
      ⟨⟨fin.1, fin.2.1, mark_to_market ⟨fin.1, fin.2.1, nav2, false⟩ scan, false⟩,
       fin.2.2, q_count⟩

/-- Step 3 (risk gates) and onwards: if a gate reason exists, liquidate all
remaining positions with reason `cash_rule_<reasons joined by "+">`, set
`nav = cash`, `in_cash = True` and return; otherwise `in_cash = False` and the
entry phase runs. -/
def gatePhase (scan : List SignalRecord) (rd : String) (mt : MarketTrend)
    (q_count : ℕ) (h2 : List (String × Position)) (cash2 : ℚ)
    (tdf2 : List TradeRecord) (nav2 : ℚ) : RunResult :=
  if gateList q_count mt ≠ [] then
    let ct3 := sellPass scan rd
      ("cash_rule_" ++ String.intercalate "+" (gateList q_count mt)) h2 cash2 tdf2
    ⟨⟨[], ct3.1, ct3.1, true⟩, ct3.2, q_count⟩
  else entryPhase scan rd h2 cash2 tdf2 nav2 q_count

/-- `run_portfolio`: mark to market, sell signal-off positions, re-mark, then
the gate / entry phases. -/
def run_portfolio (s : PortfolioState) (scan : List SignalRecord) (rd : String)
    (tdf : List TradeRecord) (mt : MarketTrend) : RunResult :=
  let nav1 := mark_to_market s scan
  let ct2 := sellPass scan rd "signal_off" (toSellOf s scan) s.cash tdf
  let h2 := holdings2Of s scan
  let nav2 := mark_to_market ⟨h2, ct2.1, nav1, s.in_cash⟩ scan
  gatePhase scan rd mt (q_countOf scan) h2 ct2.1 ct2.2 nav2

-- ── Derived descriptions of the engine's phases ──────────────────────────────

/-- The mark-to-market value recovered by selling one position. -/
def sellValue (scan : List SignalRecord) (x : String × Position) : ℚ :=
  currentPx scan x.1 x.2.entry_price / x.2.entry_price * x.2.cost_basis

/-- The SELL row the engine records for one position (the row appended by
`record_trade` in either sell loop). -/
def mkSellRecord (scan : List SignalRecord) (rd reason : String)
    (x : String × Position) : TradeRecord :=
  { date := rd, ticker := x.1, name := x.2.name, action := "SELL",
    price := roundTo 4 (currentPx scan x.1 x.2.entry_price),
    cost_basis := some (roundTo 4 x.2.entry_price),
    realized_pnl_pct :=
      some (roundTo 2 ((currentPx scan x.1 x.2.entry_price / x.2.entry_price - 1) * 100)),
    reason := reason }

/-- The BUY row the engine records for the candidate at 0-based index `idx`. -/
def mkBuyRecord (rd : String) (n_cand idx : ℕ) (r : SignalRecord) : TradeRecord :=
  { date := rd, ticker := r.ticker, name := r.name, action := "BUY",
    price := roundTo 4 (r.weekly_close.getD 0), cost_basis := none,
    realized_pnl_pct := none,
    reason := "rank_" ++ toString (idx + 1) ++ "_of_" ++ toString n_cand }

/-- The BUY rows for a run of candidates starting at index `idx`. -/
def buyRecsFrom (rd : String) (n_cand : ℕ) : ℕ → List SignalRecord → List TradeRecord
  | _, [] => []
  | idx, r :: rs => mkBuyRecord rd n_cand idx r :: buyRecsFrom rd n_cand (idx + 1) rs

/-- Cash after the signal-off exits. -/
def cashAfterSells (s : PortfolioState) (scan : List SignalRecord) : ℚ :=
  s.cash + ((toSellOf s scan).map (sellValue scan)).sum

/-- The re-marked NAV after the signal-off exits (step "Re-mark after sells"). -/
def navAfterSells (s : PortfolioState) (scan : List SignalRecord) : ℚ :=
  mark_to_market ⟨holdings2Of s scan, cashAfterSells s scan, 0, false⟩ scan

lemma sellPass_eq (scan : List SignalRecord) (rd reason : String)
    (l : List (String × Position)) (cash : ℚ) (tdf : List TradeRecord) :
    sellPass scan rd reason l cash tdf =
      (cash + (l.map (sellValue scan)).sum, tdf ++ l.map (mkSellRecord scan rd reason)) := by
  induction l generalizing cash tdf with
  | nil => simp [sellPass]
  | cons x xs ih =>
    simp only [sellPass, ih, record_trade, List.map_cons, List.sum_cons, Option.map_some']
    refine Prod.ext ?_ ?_
    · simp [sellValue, add_assoc]
    · simp [mkSellRecord]

lemma hInsert_fresh (h : List (String × Position)) (t : String) (p : Position)
    (hf : h.any (fun x => x.1 == t) = false) : hInsert h t p = h ++ [(t, p)] := by
  simp [hInsert, hf]

lemma buyPass_eq (rd : String) (es : ℚ) (n : ℕ) :
    ∀ (rs : List SignalRecord) (idx : ℕ) (h : List (String × Position)) (c : ℚ)
      (tdf : List TradeRecord),
      (∀ r ∈ rs, h.any (fun x => x.1 == r.ticker) = false) →
      (rs.map SignalRecord.ticker).Nodup →
      buyPass rd es n idx rs (h, c, tdf) =
        (h ++ rs.map (fun r => (r.ticker, mkPosition rd (roundTo 4 es) r)),
         c - rs.length * roundTo 4 es,
         tdf ++ buyRecsFrom rd n idx rs)
  | [], idx, h, c, tdf, _, _ => by simp [buyPass, buyRecsFrom]
  | r :: rs, idx, h, c, tdf, hf, hnd => by
    have hndr : (rs.map SignalRecord.ticker).Nodup := (List.nodup_cons.1 hnd).2
    have hmemr : r.ticker ∉ rs.map SignalRecord.ticker := (List.nodup_cons.1 hnd).1
    have hf' : ∀ r' ∈ rs,
        (h ++ [(r.ticker, mkPosition rd (roundTo 4 es) r)]).any
          (fun x => x.1 == r'.ticker) = false := by
      intro r' hr'
      have h1 : h.any (fun x => x.1 == r'.ticker) = false := hf r' (List.mem_cons_of_mem _ hr')
      have h2 : r.ticker ≠ r'.ticker := by
        intro hEq
        exact hmemr (hEq ▸ List.mem_map_of_mem SignalRecord.ticker hr')
      simp [List.any_append, h1, h2]
    have step := buyPass_eq rd es n rs (idx + 1)
      (h ++ [(r.ticker, mkPosition rd (roundTo 4 es) r)])
      (c - roundTo 4 es)
      (record_trade tdf rd r.ticker r.name "BUY" (r.weekly_close.getD 0) none none
        ("rank_" ++ toString (idx + 1) ++ "_of_" ++ toString n))
      hf' hndr
    have hins := hInsert_fresh h r.ticker (mkPosition rd (roundTo 4 es) r)
      (hf r (List.mem_cons_self _ _))
    simp only [buyPass]
    rw [hins, step]
    refine Prod.ext ?_ (Prod.ext ?_ ?_)
    · simp
    · simp only [List.length_cons]
      push_cast
      ring
    · simp [record_trade, buyRecsFrom, mkBuyRecord]

lemma buyRecsFrom_mem (rd : String) (n : ℕ) :
    ∀ (idx : ℕ) (rs : List SignalRecord) (tr : TradeRecord),
      tr ∈ buyRecsFrom rd n idx rs → ∃ i r, r ∈ rs ∧ tr = mkBuyRecord rd n i r
  | idx, [], tr, htr => by simp [buyRecsFrom] at htr
  | idx, r :: rs, tr, htr => by
    rcases List.mem_cons.1 htr with h | h
    · exact ⟨idx, r, List.mem_cons_self _ _, h⟩
    · obtain ⟨i, r', hr', hEq⟩ := buyRecsFrom_mem rd n (idx + 1) rs tr h
      exact ⟨i, r', List.mem_cons_of_mem _ hr', hEq⟩

-- ── Properties of the qualifying dict ────────────────────────────────────────

lemma dictInsertSR_tickers (d : List SignalRecord) (r : SignalRecord) :
    (dictInsertSR d r).map SignalRecord.ticker =
      if d.any (fun x => x.ticker == r.ticker) then d.map SignalRecord.ticker
      else d.map SignalRecord.ticker ++ [r.ticker] := by
  unfold dictInsertSR
  split
  · simp only [List.map_map]
    refine List.map_congr_left ?_
    intro x _
    by_cases hx : x.ticker == r.ticker
    · simp only [Function.comp_apply, hx, if_pos]
      exact (eq_of_beq hx).symm
    · have hne : x.ticker ≠ r.ticker := by simpa using hx
      simp [Function.comp_apply, hne]
  · simp

lemma foldl_dictInsertSR_tickers_nodup :
    ∀ (l acc : List SignalRecord), (acc.map SignalRecord.ticker).Nodup →
      ((l.foldl dictInsertSR acc).map SignalRecord.ticker).Nodup
  | [], acc, hacc => hacc
  | r :: rs, acc, hacc => by
    simp only [List.foldl_cons]
    refine foldl_dictInsertSR_tickers_nodup rs (dictInsertSR acc r) ?_
    rw [dictInsertSR_tickers]
    split
    · exact hacc
    · rw [List.nodup_append]
      refine ⟨hacc, List.nodup_singleton _, ?_⟩
      intro a ha hb
      rcases List.mem_singleton.1 hb with rfl
      obtain ⟨x, hx, hxt⟩ := List.mem_map.1 ha
      have : acc.any (fun x => x.ticker == r.ticker) = true :=
        List.any_eq_true.2 ⟨x, hx, by simp [hxt]⟩
      simp_all

lemma qualifyingList_tickers_nodup (scan : List SignalRecord) :
    ((qualifyingList scan).map SignalRecord.ticker).Nodup :=
  foldl_dictInsertSR_tickers_nodup _ [] (by simp)

lemma qMem_of_mem_qualifyingList {scan : List SignalRecord} {r : SignalRecord}
    (h : r ∈ qualifyingList scan) : qMem scan r.ticker = true :=
  List.any_eq_true.2 ⟨r, h, by simp⟩

lemma foldl_dictInsertSR_fresh :
    ∀ (l acc : List SignalRecord),
      (∀ r ∈ l, acc.any (fun x => x.ticker == r.ticker) = false) →
      (l.map SignalRecord.ticker).Nodup →
      l.foldl dictInsertSR acc = acc ++ l
  | [], acc, _, _ => by simp
  | r :: rs, acc, hf, hnd => by
    have hfr : acc.any (fun x => x.ticker == r.ticker) = false :=
      hf r (List.mem_cons_self _ _)
    have hins : dictInsertSR acc r = acc ++ [r] := by
      unfold dictInsertSR
      rw [if_neg (by simp [hfr])]
    have hmemr : r.ticker ∉ rs.map SignalRecord.ticker := (List.nodup_cons.1 hnd).1
    have hf' : ∀ r' ∈ rs, ((acc ++ [r]).any (fun x => x.ticker == r'.ticker)) = false := by
      intro r' hr'
      have h1 := hf r' (List.mem_cons_of_mem _ hr')
      have h2 : r.ticker ≠ r'.ticker := by
        intro hEq
        exact hmemr (hEq ▸ List.mem_map_of_mem SignalRecord.ticker hr')
      simp [List.any_append, h1, h2]
    simp only [List.foldl_cons, hins]
    rw [foldl_dictInsertSR_fresh rs (acc ++ [r]) hf' (List.nodup_cons.1 hnd).2]
    simp

/-- With distinct tickers in the batch (one record per instrument), the
qualifying dict's value order is exactly the batch's first-seen order. -/
lemma qualifyingList_of_nodup {scan : List SignalRecord}
    (h : (scan.map SignalRecord.ticker).Nodup) :
    qualifyingList scan = scan.filter qualPred := by
  have hsub : List.Sublist ((scan.filter qualPred).map SignalRecord.ticker)
      (scan.map SignalRecord.ticker) :=
    (List.filter_sublist scan).map SignalRecord.ticker
  have := foldl_dictInsertSR_fresh (scan.filter qualPred) []
    (by intro r _; rfl) (h.sublist hsub)
  simpa [qualifyingList] using this

-- ── Properties of the stable descending sort ─────────────────────────────────

lemma insertRank_perm (r : SignalRecord) :
    ∀ l : List SignalRecord, List.Perm (insertRank r l) (r :: l)
  | [] => List.Perm.refl _
  | y :: ys => by
    unfold insertRank
    split
    · exact List.Perm.refl _
    · exact ((insertRank_perm r ys).cons y).trans (List.Perm.swap r y ys)

lemma sortByRankDesc_perm : ∀ l : List SignalRecord, List.Perm (sortByRankDesc l) l
  | [] => List.Perm.refl _
  | r :: rs =>
    (insertRank_perm r (sortByRankDesc rs)).trans ((sortByRankDesc_perm rs).cons r)

lemma mem_insertRank {r x : SignalRecord} {l : List SignalRecord}
    (h : x ∈ insertRank r l) : x = r ∨ x ∈ l := by
  have := (insertRank_perm r l).mem_iff.1 h
  simpa using this

lemma insertRank_pairwise {l : List SignalRecord}
    (h : l.Pairwise (fun a b => rankKey b ≤ rankKey a)) (r : SignalRecord) :
    (insertRank r l).Pairwise (fun a b => rankKey b ≤ rankKey a) := by
  induction l with
  | nil => simp [insertRank]
  | cons y ys ih =>
    rcases List.pairwise_cons.1 h with ⟨hy, hys⟩
    unfold insertRank
    split
    · refine List.pairwise_cons.2 ⟨?_, h⟩
      intro z hz
      rcases List.mem_cons.1 hz with rfl | hz'
      · assumption
      · exact (hy z hz').trans (by assumption)
    · refine List.pairwise_cons.2 ⟨?_, ih hys⟩
      intro z hz
      rcases mem_insertRank hz with rfl | hz'
      · exact le_of_not_le (by assumption)
      · exact hy z hz'

lemma sortByRankDesc_pairwise :
    ∀ l : List SignalRecord,
      (sortByRankDesc l).Pairwise (fun a b => rankKey b ≤ rankKey a)
  | [] => by simp [sortByRankDesc]
  | r :: rs => insertRank_pairwise (sortByRankDesc_pairwise rs) r

lemma insertRank_sublist_self (r : SignalRecord) :
    ∀ l : List SignalRecord, List.Sublist l (insertRank r l)
  | [] => List.nil_sublist _
  | y :: ys => by
    unfold insertRank
    split
    · exact List.sublist_cons_self _ _
    · exact (insertRank_sublist_self r ys).cons₂ y

lemma insertRank_pair {a b : SignalRecord} (hk : rankKey b ≤ rankKey a) :
    ∀ l : List SignalRecord, b ∈ l → List.Sublist [a, b] (insertRank a l)
  | [], hb => by simp at hb
  | y :: ys, hb => by
    unfold insertRank
    split
    · exact (List.singleton_sublist.2 hb).cons₂ a
    · rcases List.mem_cons.1 hb with rfl | hb'
      · exact absurd (hk.trans_lt (lt_of_not_le (by assumption))) (lt_irrefl _)
      · exact (insertRank_pair hk ys hb').cons y

/-- Stability of the sort: two candidates with equal rank scores keep their
relative order. -/
lemma sortByRankDesc_stable :
    ∀ (l : List SignalRecord) (a b : SignalRecord),
      List.Sublist [a, b] l → rankKey a = rankKey b →
      List.Sublist [a, b] (sortByRankDesc l)
  | [], a, b, h, _ => by simp at h
  | c :: cs, a, b, h, hk => by
    unfold sortByRankDesc
    cases h with
    | cons _ h' =>
      exact (sortByRankDesc_stable cs a b h' hk).trans
        (insertRank_sublist_self c (sortByRankDesc cs))
    | cons₂ _ h' =>
      have hb : b ∈ sortByRankDesc cs :=
        (sortByRankDesc_perm cs).mem_iff.2 (List.singleton_sublist.1 h')
      exact insertRank_pair (le_of_eq hk.symm) (sortByRankDesc cs) hb

-- ── Candidate-set facts ──────────────────────────────────────────────────────

lemma candidatesOf_tickers_nodup (scan : List SignalRecord)
    (h2 : List (String × Position)) :
    ((candidatesOf scan h2).map SignalRecord.ticker).Nodup :=
  (qualifyingList_tickers_nodup scan).sublist
    ((List.filter_sublist _).map SignalRecord.ticker)

lemma mem_candidatesOf_not_held {scan : List SignalRecord}
    {h2 : List (String × Position)} {r : SignalRecord}
    (h : r ∈ candidatesOf scan h2) : h2.any (fun x => x.1 == r.ticker) = false := by
  have := List.of_mem_filter h
  simpa using this

lemma mem_candidatesOf_qualifying {scan : List SignalRecord}
    {h2 : List (String × Position)} {r : SignalRecord}
    (h : r ∈ candidatesOf scan h2) : r ∈ qualifyingList scan :=
  List.mem_of_mem_filter h

lemma mem_take_sort_candidates {scan : List SignalRecord}
    {h2 : List (String × Position)} {n : ℕ} {r : SignalRecord}
    (h : r ∈ (sortByRankDesc (candidatesOf scan h2)).take n) :
    r ∈ candidatesOf scan h2 :=
  (sortByRankDesc_perm _).mem_iff.1 (List.take_subset _ _ h)

lemma take_sort_tickers_nodup (scan : List SignalRecord)
    (h2 : List (String × Position)) (n : ℕ) :
    (((sortByRankDesc (candidatesOf scan h2)).take n).map SignalRecord.ticker).Nodup := by
  have hperm : ((sortByRankDesc (candidatesOf scan h2)).map SignalRecord.ticker).Nodup :=
    ((sortByRankDesc_perm (candidatesOf scan h2)).map SignalRecord.ticker).nodup_iff.2
      (candidatesOf_tickers_nodup scan h2)
  exact hperm.sublist ((List.take_sublist n _).map SignalRecord.ticker)

-- ── Gate-reason facts ────────────────────────────────────────────────────────

lemma gateList_eq_nil_iff (q : ℕ) (mt : MarketTrend) :
    gateList q mt = [] ↔ (MIN_STOCKS ≤ q ∧ mt.risk_on = true) := by
  unfold gateList
  rcases Nat.lt_or_ge q MIN_STOCKS with hq | hq
  · simp [hq, Nat.not_le.2 hq]
  · cases hr : mt.risk_on <;> simp [hq, Nat.not_lt.2 hq, hr]

lemma gateList_ne_nil (q : ℕ) (mt : MarketTrend)
    (h : q < MIN_STOCKS ∨ mt.risk_on = false) : gateList q mt ≠ [] := by
  intro hnil
  rcases (gateList_eq_nil_iff q mt).1 hnil with ⟨hq, hr⟩
  rcases h with h | h
  · exact absurd hq (Nat.not_le.2 h)
  · rw [hr] at h
    cases h

-- ── Branch descriptions of the engine ────────────────────────────────────────

lemma run_portfolio_eq (s : PortfolioState) (scan : List SignalRecord) (rd : String)
    (tdf : List TradeRecord) (mt : MarketTrend) :
    run_portfolio s scan rd tdf mt =
      gatePhase scan rd mt (q_countOf scan) (holdings2Of s scan)
        (cashAfterSells s scan)
        (tdf ++ (toSellOf s scan).map (mkSellRecord scan rd "signal_off"))
        (navAfterSells s scan) := by
  simp [run_portfolio, sellPass_eq, cashAfterSells, navAfterSells, mark_to_market]

lemma gatePhase_gate {q : ℕ} {mt : MarketTrend} (scan : List SignalRecord)
    (rd : String) (h2 : List (String × Position)) (cash2 : ℚ)
    (tdf2 : List TradeRecord) (nav2 : ℚ) (h : gateList q mt ≠ []) :
    gatePhase scan rd mt q h2 cash2 tdf2 nav2 =
      ⟨⟨[], cash2 + (h2.map (sellValue scan)).sum,
        cash2 + (h2.map (sellValue scan)).sum, true⟩,
       tdf2 ++ h2.map (mkSellRecord scan rd
         ("cash_rule_" ++ String.intercalate "+" (gateList q mt))), q⟩ := by
  simp [gatePhase, h, sellPass_eq]

lemma gatePhase_entry {q : ℕ} {mt : MarketTrend} (scan : List SignalRecord)
    (rd : String) (h2 : List (String × Position)) (cash2 : ℚ)
    (tdf2 : List TradeRecord) (nav2 : ℚ) (h : gateList q mt = []) :
    gatePhase scan rd mt q h2 cash2 tdf2 nav2 =
      entryPhase scan rd h2 cash2 tdf2 nav2 q := by
  simp [gatePhase, h]

lemma entryPhase_full (scan : List SignalRecord) (rd : String)
    (h2 : List (String × Position)) (cash2 : ℚ) (tdf2 : List TradeRecord)
    (nav2 : ℚ) (q : ℕ) (h : (MAX_POSITIONS : ℤ) - (h2.length : ℤ) ≤ 0) :
    entryPhase scan rd h2 cash2 tdf2 nav2 q = ⟨⟨h2, cash2, nav2, false⟩, tdf2, q⟩ := by
  simp [entryPhase, h]

lemma entryPhase_noslots (scan : List SignalRecord) (rd : String)
    (h2 : List (String × Position)) (cash2 : ℚ) (tdf2 : List TradeRecord)
    (nav2 : ℚ) (q : ℕ) (hcap : ¬ (MAX_POSITIONS : ℤ) - (h2.length : ℤ) ≤ 0)
    (h : min ((MAX_POSITIONS : ℤ) - (h2.length : ℤ)).toNat
      (candidatesOf scan h2).length = 0) :
    entryPhase scan rd h2 cash2 tdf2 nav2 q = ⟨⟨h2, cash2, nav2, false⟩, tdf2, q⟩ := by
  simp only [entryPhase, hcap, if_false]
  rw [if_pos h]

/-- The number of slots actually filled. -/
def slotsOf (scan : List SignalRecord) (h2 : List (String × Position)) : ℕ :=
  min ((MAX_POSITIONS : ℤ) - (h2.length : ℤ)).toNat (candidatesOf scan h2).length

/-- The list of candidates filled this period, in fill order. -/
def filledOf (scan : List SignalRecord) (h2 : List (String × Position)) :
    List SignalRecord :=
  (sortByRankDesc (candidatesOf scan h2)).take (slotsOf scan h2)

/-- The rounded per-position entry size. -/
def costBasisOf (scan : List SignalRecord) (h2 : List (String × Position))
    (nav2 : ℚ) : ℚ :=
  roundTo 4 (nav2 / ((h2.length + slotsOf scan h2 : ℕ) : ℚ))

lemma entryPhase_buy (scan : List SignalRecord) (rd : String)
    (h2 : List (String × Position)) (cash2 : ℚ) (tdf2 : List TradeRecord)
    (nav2 : ℚ) (q : ℕ) (hcap : ¬ (MAX_POSITIONS : ℤ) - (h2.length : ℤ) ≤ 0)
    (hslots : slotsOf scan h2 ≠ 0) :
    entryPhase scan rd h2 cash2 tdf2 nav2 q =
      ⟨⟨h2 ++ (filledOf scan h2).map
          (fun r => (r.ticker, mkPosition rd (costBasisOf scan h2 nav2) r)),
        cash2 - (filledOf scan h2).length * costBasisOf scan h2 nav2,
        mark_to_market
          ⟨h2 ++ (filledOf scan h2).map
              (fun r => (r.ticker, mkPosition rd (costBasisOf scan h2 nav2) r)),
            cash2 - (filledOf scan h2).length * costBasisOf scan h2 nav2, nav2, false⟩
          scan,
        false⟩,
       tdf2 ++ buyRecsFrom rd (candidatesOf scan h2).length 0 (filledOf scan h2), q⟩ := by
  have hfresh : ∀ r ∈ filledOf scan h2, h2.any (fun x => x.1 == r.ticker) = false :=
    fun r hr => mem_candidatesOf_not_held (mem_take_sort_candidates hr)
  have hnd : ((filledOf scan h2).map SignalRecord.ticker).Nodup :=
    take_sort_tickers_nodup scan h2 _
  have hbp := buyPass_eq rd (nav2 / ((h2.length + slotsOf scan h2 : ℕ) : ℚ))
    (candidatesOf scan h2).length (filledOf scan h2) 0 h2 cash2 tdf2 hfresh hnd
  simp only [entryPhase, hcap, if_false]
  rw [if_neg (by simpa [slotsOf] using hslots)]
  simp only [slotsOf, filledOf, costBasisOf] at hbp ⊢
  rw [hbp]

-- ── Membership helpers for the holdings ──────────────────────────────────────

lemma mem_holdings2_of {s : PortfolioState} {scan : List SignalRecord} {t : String}
    {pos : Position} (hmem : (t, pos) ∈ s.holdings) (hq : qMem scan t = true) :
    (t, pos) ∈ holdings2Of s scan :=
  List.mem_filter.2 ⟨hmem, hq⟩

lemma not_mem_holdings2 {s : PortfolioState} {scan : List SignalRecord} {t : String}
    (hq : qMem scan t = false) (p' : Position) : (t, p') ∉ holdings2Of s scan := by
  intro hp'
  have hb : qMem scan t = true := (List.mem_filter.1 hp').2
  rw [hq] at hb
  cases hb

lemma not_mem_filled_map {scan : List SignalRecord} {h2 : List (String × Position)}
    {t : String} (rd : String) (cb : ℚ) (hq : qMem scan t = false) (p' : Position) :
    (t, p') ∉ (filledOf scan h2).map (fun r => (r.ticker, mkPosition rd cb r)) := by
  intro hp'
  obtain ⟨r, hr, hEq⟩ := List.mem_map.1 hp'
  have ht : r.ticker = t := congrArg Prod.fst hEq
  have hqr : qMem scan r.ticker = true :=
    qMem_of_mem_qualifyingList (mem_candidatesOf_qualifying (mem_take_sort_candidates hr))
  rw [ht, hq] at hqr
  cases hqr

-- ── Claim theorems ───────────────────────────────────────────────────────────

/-- C1: after any full `run_portfolio` pass, the state's `nav` equals
`cash + Σ (current_price/entry_price)·cost_basis` over the held positions, with
`current_price` resolved by the engine's own mark-to-market rule
(`mark_to_market`); the equality is exact in ℚ, hence in particular within the
claimed 1e-6 relative tolerance. -/
theorem nav_invariant_after_pass (s : PortfolioState) (scan : List SignalRecord)
    (rd : String) (tdf : List TradeRecord) (mt : MarketTrend) :
    (run_portfolio s scan rd tdf mt).state.nav =
      mark_to_market (run_portfolio s scan rd tdf mt).state scan ∧
    |(run_portfolio s scan rd tdf mt).state.nav -
        mark_to_market (run_portfolio s scan rd tdf mt).state scan| ≤
      |mark_to_market (run_portfolio s scan rd tdf mt).state scan| / 1000000 := by
  have hmain : (run_portfolio s scan rd tdf mt).state.nav =
      mark_to_market (run_portfolio s scan rd tdf mt).state scan := by
    rw [run_portfolio_eq]
    by_cases hg : gateList (q_countOf scan) mt = []
    · rw [gatePhase_entry _ _ _ _ _ _ hg]
      by_cases hcap : (MAX_POSITIONS : ℤ) - ((holdings2Of s scan).length : ℤ) ≤ 0
      · rw [entryPhase_full _ _ _ _ _ _ _ hcap]
        simp [mark_to_market, navAfterSells]
      · by_cases hs : slotsOf scan (holdings2Of s scan) = 0
        · rw [entryPhase_noslots _ _ _ _ _ _ _ hcap (by simpa [slotsOf] using hs)]
          simp [mark_to_market, navAfterSells]
        · rw [entryPhase_buy _ _ _ _ _ _ _ hcap hs]
          simp [mark_to_market]
    · rw [gatePhase_gate _ _ _ _ _ _ hg]
      simp [mark_to_market]
  refine ⟨hmain, ?_⟩
  rw [hmain, sub_self, abs_zero]
  positivity

/-- C2: whenever the qualifying count is below 10 or the regime is not risk-on,
the engine liquidates every remaining position using the shared pricing and
SELL-recording rule, tags each gate SELL with the fired conditions joined by
`"+"`, sets `in_cash`, sets `nav` exactly equal to `cash`, appends no BUY rows,
and leaves exactly zero holdings. -/
theorem risk_gate_full_liquidation (s : PortfolioState) (scan : List SignalRecord)
    (rd : String) (tdf : List TradeRecord) (mt : MarketTrend)
    (h : q_countOf scan < MIN_STOCKS ∨ mt.risk_on = false) :
    (run_portfolio s scan rd tdf mt).state.holdings = [] ∧
    (run_portfolio s scan rd tdf mt).state.in_cash = true ∧
    (run_portfolio s scan rd tdf mt).state.nav =
      (run_portfolio s scan rd tdf mt).state.cash ∧
    (run_portfolio s scan rd tdf mt).trades =
      tdf ++ (toSellOf s scan).map (mkSellRecord scan rd "signal_off") ++
        (holdings2Of s scan).map (mkSellRecord scan rd
          ("cash_rule_" ++ String.intercalate "+" (gateList (q_countOf scan) mt))) ∧
    (∀ tr ∈ (run_portfolio s scan rd tdf mt).trades, tr ∈ tdf ∨ tr.action = "SELL") := by
  have hg := gateList_ne_nil _ _ h
  rw [run_portfolio_eq, gatePhase_gate _ _ _ _ _ _ hg]
  refine ⟨rfl, rfl, rfl, rfl, ?_⟩
  intro tr htr
  rcases List.mem_append.1 htr with h1 | h2
  · rcases List.mem_append.1 h1 with h1a | h1b
    · exact Or.inl h1a
    · right
      obtain ⟨x, _, rfl⟩ := List.mem_map.1 h1b
      rfl
  · right
    obtain ⟨x, _, rfl⟩ := List.mem_map.1 h2
    rfl

/-- C9: any benchmark data fault (fetch/compute error, empty data, or
insufficient history) yields a regime value with `risk_on = false`, and feeding
that regime to the engine makes the risk gate fire: the pass ends in cash with
no holdings. -/
theorem regime_fault_risk_off (fetch : Except String (List ℚ)) (s : PortfolioState)
    (scan : List SignalRecord) (rd : String) (tdf : List TradeRecord)
    (h : (get_market_trend fetch).status ≠ "ok") :
    (get_market_trend fetch).risk_on = false ∧
    (run_portfolio s scan rd tdf (get_market_trend fetch)).state.in_cash = true ∧
    (run_portfolio s scan rd tdf (get_market_trend fetch)).state.holdings = [] ∧
    (run_portfolio s scan rd tdf (get_market_trend fetch)).state.nav =
      (run_portfolio s scan rd tdf (get_market_trend fetch)).state.cash := by
  have hro : (get_market_trend fetch).risk_on = false := by
    rcases fetch with e | close
    · rfl
    · by_cases h1 : close.isEmpty
      · simp [get_market_trend, h1]
      · by_cases h2 : close.length < MARKET_EMA_SLOW
        · simp [get_market_trend, h1, h2]
        · exact absurd (by simp [get_market_trend, h1, h2] : (get_market_trend
            (Except.ok close)).status = "ok") h
  have hg := gateList_ne_nil (q_countOf scan) _ (Or.inr hro)
  rw [run_portfolio_eq, gatePhase_gate _ _ _ _ _ _ hg]
  exact ⟨hro, rfl, rfl, rfl⟩

/-- C3: a previously held position survives the pass, byte-for-byte unchanged,
exactly when its instrument is still in the qualifying set and no risk gate
fired; otherwise no position for that ticker remains (full removal, never a
partial reduction). -/
theorem position_exit_iff (s : PortfolioState) (scan : List SignalRecord)
    (rd : String) (tdf : List TradeRecord) (mt : MarketTrend) (t : String)
    (pos : Position) (hmem : (t, pos) ∈ s.holdings) :
    ((qMem scan t = true ∧ gateList (q_countOf scan) mt = []) →
      (t, pos) ∈ (run_portfolio s scan rd tdf mt).state.holdings) ∧
    ((qMem scan t = false ∨ gateList (q_countOf scan) mt ≠ []) →
      ∀ p', (t, p') ∉ (run_portfolio s scan rd tdf mt).state.holdings) := by
  rw [run_portfolio_eq]
  by_cases hg : gateList (q_countOf scan) mt = []
  · rw [gatePhase_entry _ _ _ _ _ _ hg]
    by_cases hcap : (MAX_POSITIONS : ℤ) - ((holdings2Of s scan).length : ℤ) ≤ 0
    · rw [entryPhase_full _ _ _ _ _ _ _ hcap]
      refine ⟨fun hk => mem_holdings2_of hmem hk.1, ?_⟩
      rintro (hq | hg') p' hp'
      · exact not_mem_holdings2 hq p' hp'
      · exact hg' hg
    · by_cases hs : slotsOf scan (holdings2Of s scan) = 0
      · rw [entryPhase_noslots _ _ _ _ _ _ _ hcap (by simpa [slotsOf] using hs)]
        refine ⟨fun hk => mem_holdings2_of hmem hk.1, ?_⟩
        rintro (hq | hg') p' hp'
        · exact not_mem_holdings2 hq p' hp'
        · exact hg' hg
      · rw [entryPhase_buy _ _ _ _ _ _ _ hcap hs]
        refine ⟨fun hk => List.mem_append_left _ (mem_holdings2_of hmem hk.1), ?_⟩
        rintro (hq | hg') p' hp'
        · rcases List.mem_append.1 hp' with hA | hB
          · exact not_mem_holdings2 hq p' hA
          · exact not_mem_filled_map rd _ hq p' hB
        · exact hg' hg
  · rw [gatePhase_gate _ _ _ _ _ _ hg]
    refine ⟨fun hk => absurd hk.2 hg, ?_⟩
    intro _ p' hp'
    simp at hp'

lemma filledOf_length (scan : List SignalRecord) (h2 : List (String × Position)) :
    (filledOf scan h2).length = slotsOf scan h2 := by
  rw [filledOf, List.length_take, (sortByRankDesc_perm _).length_eq]
  exact min_eq_left (min_le_right _ _)

/-- C4 (amended): every position created in an entry fill has cost basis
`roundTo 4 (nav / (count + slots))` — the equal per-position dollar size
*rounded to 4 decimal places*, which is what the source stores — identical
across all candidates filled that period, while the surviving pre-existing
positions are carried over unchanged as a prefix. -/
theorem entry_cost_basis_rounded (s : PortfolioState) (scan : List SignalRecord)
    (rd : String) (tdf : List TradeRecord) (mt : MarketTrend)
    (hg : gateList (q_countOf scan) mt = [])
    (hcap : ¬ (MAX_POSITIONS : ℤ) - ((holdings2Of s scan).length : ℤ) ≤ 0)
    (hs : slotsOf scan (holdings2Of s scan) ≠ 0) :
    ∃ news,
      (run_portfolio s scan rd tdf mt).state.holdings = holdings2Of s scan ++ news ∧
      news.length = slotsOf scan (holdings2Of s scan) ∧
      (∀ x ∈ news, x.2.cost_basis =
        roundTo 4 (navAfterSells s scan /
          (((holdings2Of s scan).length + slotsOf scan (holdings2Of s scan) : ℕ) : ℚ))) ∧
      (∀ x ∈ news, ∀ y ∈ news, x.2.cost_basis = y.2.cost_basis) := by
  rw [run_portfolio_eq, gatePhase_entry _ _ _ _ _ _ hg,
    entryPhase_buy _ _ _ _ _ _ _ hcap hs]
  refine ⟨_, rfl, ?_, ?_, ?_⟩
  · rw [List.length_map]
    exact filledOf_length scan (holdings2Of s scan)
  · intro x hx
    obtain ⟨r, _, rfl⟩ := List.mem_map.1 hx
    rfl
  · intro x hx y hy
    obtain ⟨r, _, rfl⟩ := List.mem_map.1 hx
    obtain ⟨r', _, rfl⟩ := List.mem_map.1 hy
    rfl

/-- C5: in an entry fill, the candidate list (qualifying, not already held,
ordered by first appearance in the batch when tickers are distinct) is sorted
by rank score descending with a stable tie-break, and exactly the top
`min(capacity, #candidates)` of the sorted list are bought, in that order. -/
theorem entry_ranking_stable (s : PortfolioState) (scan : List SignalRecord)
    (rd : String) (tdf : List TradeRecord) (mt : MarketTrend)
    (hg : gateList (q_countOf scan) mt = [])
    (hcap : ¬ (MAX_POSITIONS : ℤ) - ((holdings2Of s scan).length : ℤ) ≤ 0)
    (hs : slotsOf scan (holdings2Of s scan) ≠ 0) :
    List.Perm (sortByRankDesc (candidatesOf scan (holdings2Of s scan)))
      (candidatesOf scan (holdings2Of s scan)) ∧
    (sortByRankDesc (candidatesOf scan (holdings2Of s scan))).Pairwise
      (fun a b => rankKey b ≤ rankKey a) ∧
    (∀ a b, List.Sublist [a, b] (candidatesOf scan (holdings2Of s scan)) →
      rankKey a = rankKey b →
      List.Sublist [a, b] (sortByRankDesc (candidatesOf scan (holdings2Of s scan)))) ∧
    ((scan.map SignalRecord.ticker).Nodup →
      qualifyingList scan = scan.filter qualPred) ∧
    (run_portfolio s scan rd tdf mt).trades =
      tdf ++ (toSellOf s scan).map (mkSellRecord scan rd "signal_off") ++
        buyRecsFrom rd (candidatesOf scan (holdings2Of s scan)).length 0
          (filledOf scan (holdings2Of s scan)) := by
  refine ⟨sortByRankDesc_perm _, sortByRankDesc_pairwise _,
    fun a b hab hk => sortByRankDesc_stable _ a b hab hk,
    fun h => qualifyingList_of_nodup h, ?_⟩
  rw [run_portfolio_eq, gatePhase_entry _ _ _ _ _ _ hg,
    entryPhase_buy _ _ _ _ _ _ _ hcap hs]

/-- C7 (amended): every trade row the engine appends is either a BUY whose
cost-basis and realized-P&L cells are empty, or a SELL whose cost-basis cell
holds the originating position's entry price (rounded to 4 decimals).  In
particular BUY rows do **not** carry their cost basis, so the persisted log
alone cannot reproduce the final state. -/
theorem trade_rows_content (s : PortfolioState) (scan : List SignalRecord)
    (rd : String) (tdf : List TradeRecord) (mt : MarketTrend) :
    ∀ tr ∈ (run_portfolio s scan rd tdf mt).trades.drop tdf.length,
      (tr.action = "BUY" ∧ tr.cost_basis = none ∧ tr.realized_pnl_pct = none) ∨
      (tr.action = "SELL" ∧ ∃ x, x ∈ s.holdings ∧ tr.ticker = x.1 ∧
        tr.cost_basis = some (roundTo 4 x.2.entry_price)) := by
  have hOfSell : ∀ (reason : String) (l : List (String × Position)),
      (∀ x ∈ l, x ∈ s.holdings) →
      ∀ tr ∈ l.map (mkSellRecord scan rd reason),
        tr.action = "SELL" ∧ ∃ x, x ∈ s.holdings ∧ tr.ticker = x.1 ∧
          tr.cost_basis = some (roundTo 4 x.2.entry_price) := by
    intro reason l hl tr htr
    obtain ⟨x, hx, rfl⟩ := List.mem_map.1 htr
    exact ⟨rfl, x, hl x hx, rfl, rfl⟩
  have hsold : ∀ x ∈ toSellOf s scan, x ∈ s.holdings :=
    fun x hx => List.mem_of_mem_filter hx
  have hkept : ∀ x ∈ holdings2Of s scan, x ∈ s.holdings :=
    fun x hx => List.mem_of_mem_filter hx
  intro tr htr
  rw [run_portfolio_eq] at htr
  by_cases hgate : gateList (q_countOf scan) mt = []
  · rw [gatePhase_entry _ _ _ _ _ _ hgate] at htr
    by_cases hcap : (MAX_POSITIONS : ℤ) - ((holdings2Of s scan).length : ℤ) ≤ 0
    · rw [entryPhase_full _ _ _ _ _ _ _ hcap] at htr
      simp only [List.drop_left] at htr
      exact Or.inr ((hOfSell _ _ hsold) tr htr)
    · by_cases hslot : slotsOf scan (holdings2Of s scan) = 0
      · rw [entryPhase_noslots _ _ _ _ _ _ _ hcap (by simpa [slotsOf] using hslot)] at htr
        simp only [List.drop_left] at htr
        exact Or.inr ((hOfSell _ _ hsold) tr htr)
      · rw [entryPhase_buy _ _ _ _ _ _ _ hcap hslot] at htr
        rw [List.append_assoc, List.drop_left] at htr
        rcases List.mem_append.1 htr with hA | hB
        · exact Or.inr ((hOfSell _ _ hsold) tr hA)
        · obtain ⟨i, r, _, rfl⟩ := buyRecsFrom_mem rd _ 0 _ tr hB
          exact Or.inl ⟨rfl, rfl, rfl⟩
  · rw [gatePhase_gate _ _ _ _ _ _ hgate] at htr
    rw [List.append_assoc, List.drop_left] at htr
    rcases List.mem_append.1 htr with hA | hB
    · exact Or.inr ((hOfSell _ _ hsold) tr hA)
    · exact Or.inr ((hOfSell _ _ hkept) tr hB)

/-- The pricing rule as the claim words it: use the period's close only when
the instrument is present in the scan AND the record's status is ok, else the
entry price.  Written from the claim for comparison with the source's
`currentPx`. -/
def claimCurrentPx (scan : List SignalRecord) (t : String) (entry : ℚ) : ℚ :=
  match dictFind scan t with
  | some r =>
    match r.weekly_close with
    | some c => if r.status == "ok" then c else entry
    | none => entry
  | none => entry

/-- C6 (amended): during mark-to-market the engine uses the period's close for
a held instrument exactly when the scan holds a record for it whose close is
present and nonzero — *irrespective of the record's status* — and otherwise
falls back to the entry price, in which case the position contributes exactly
its cost basis to NAV. -/
theorem mark_price_rule (scan : List SignalRecord) (t : String) (e cb : ℚ) :
    (∀ r c, dictFind scan t = some r → r.weekly_close = some c → c ≠ 0 →
      currentPx scan t e = c) ∧
    (∀ r, dictFind scan t = some r → r.weekly_close = some 0 →
      currentPx scan t e = e) ∧
    (∀ r, dictFind scan t = some r → r.weekly_close = none →
      currentPx scan t e = e) ∧
    (dictFind scan t = none → currentPx scan t e = e) ∧
    (e ≠ 0 → currentPx scan t e = e → currentPx scan t e / e * cb = cb) := by
  refine ⟨?_, ?_, ?_, ?_, ?_⟩
  · intro r c hr hc hc0
    simp [currentPx, hr, hc, hc0]
  · intro r hr hc
    simp [currentPx, hr, hc]
  · intro r hr hc
    simp [currentPx, hr, hc]
  · intro hr
    simp [currentPx, hr]
  · intro he hpx
    rw [hpx]
    field_simp

/-- The source's macd series: fast EMA minus slow EMA (the oscillator). -/
def macdListOf (weekly : List ℚ) : List ℚ := (calc_macd weekly).2.2.1

/-- The source's hist series: oscillator minus its signal line. -/
def histListOf (weekly : List ℚ) : List ℚ := (calc_macd weekly).2.2.2.2

lemma macdListOf_eq (weekly : List ℚ) :
    macdListOf weekly =
      List.zipWith (· - ·) (ewmList EMA_FAST weekly) (ewmList EMA_SLOW weekly) := rfl

lemma histListOf_eq (weekly : List ℚ) :
    histListOf weekly =
      List.zipWith (· - ·) (macdListOf weekly) (ewmList EMA_SIG (macdListOf weekly)) := rfl

/-- C10: with sufficient history the evaluator returns status ok, reports the
rounded latest oscillator and histogram values, and its qualifies flag is true
iff both reported values (oscillator = fast EMA − slow EMA; histogram =
oscillator − signal line; each rounded to 4 decimals, per the spec's output
rounding rule) are positive. -/
theorem signal_qualifies_iff (t n rg : String) (weekly : List ℚ)
    (h : EMA_SLOW + EMA_SIG ≤ weekly.length) :
    (get_stock_data t n rg weekly).status = "ok" ∧
    (get_stock_data t n rg weekly).macd =
      some (roundTo 4 (last0 (macdListOf weekly))) ∧
    (get_stock_data t n rg weekly).hist =
      some (roundTo 4 (last0 (histListOf weekly))) ∧
    ((get_stock_data t n rg weekly).momentum = true ↔
      (0 < roundTo 4 (last0 (macdListOf weekly)) ∧
       0 < roundTo 4 (last0 (histListOf weekly)))) := by
  have hne : weekly.isEmpty = false := by
    cases weekly with
    | nil => exact absurd h (by decide)
    | cons a l => rfl
  have hnlt : ¬ weekly.length < EMA_SLOW + EMA_SIG := not_lt.2 h
  refine ⟨?_, ?_, ?_, ?_⟩ <;>
    simp [get_stock_data, hne, hnlt, macdListOf, histListOf, Bool.and_eq_true,
      decide_eq_true_eq]

/-- C8: with fewer than `slow_span + signal_span = 35` weekly observations the
evaluator reports `insufficient_history` carrying only the rounded latest close
(all other numeric fields absent, qualifies false), and with zero observations
it reports `no_data`. -/
theorem signal_history_contract (t n rg : String) (weekly : List ℚ) :
    (weekly.length = 0 → (get_stock_data t n rg weekly).status = "no_data") ∧
    (0 < weekly.length → weekly.length < EMA_SLOW + EMA_SIG →
      (get_stock_data t n rg weekly).status = "insufficient_history" ∧
      (∃ c, weekly.getLast? = some c ∧
        (get_stock_data t n rg weekly).weekly_close = some (roundTo 4 c)) ∧
      (get_stock_data t n rg weekly).ema12 = none ∧
      (get_stock_data t n rg weekly).ema26 = none ∧
      (get_stock_data t n rg weekly).macd = none ∧
      (get_stock_data t n rg weekly).signal = none ∧
      (get_stock_data t n rg weekly).hist = none ∧
      (get_stock_data t n rg weekly).rank_score = none ∧
      (get_stock_data t n rg weekly).momentum = false) := by
  constructor
  · intro h0
    have : weekly = [] := List.length_eq_zero.1 h0
    subst this
    rfl
  · intro hpos hlt
    have hne : weekly ≠ [] := by
      intro hnil
      rw [hnil] at hpos
      simp at hpos
    have hnemp : weekly.isEmpty = false := by
      cases weekly with
      | nil => exact absurd rfl hne
      | cons a l => rfl
    obtain ⟨c, hc⟩ : ∃ c, weekly.getLast? = some c := by
      cases hl : weekly.getLast? with
      | none => exact absurd (List.getLast?_eq_none_iff.1 hl) hne
      | some c => exact ⟨c, rfl⟩
    refine ⟨?_, ⟨c, hc, ?_⟩, ?_, ?_, ?_, ?_, ?_, ?_, ?_⟩ <;>
      simp [get_stock_data, hnemp, hlt, hc]

-- ── Concrete scenarios ───────────────────────────────────────────────────────

/-- A qualifying ok-status scan record with the given close and rank score. -/
def mkOk (t : String) (close rank : ℚ) : SignalRecord :=
  { ticker := t, name := t, region := "", weekly_close := some close,
    rank_score := some rank, momentum := true, status := "ok" }

/-- A risk-on market regime. -/
def mtOn : MarketTrend := { risk_on := true, status := "ok" }

/-- Twelve fresh qualifying candidates (the spec's NAV-100k scenario). -/
def scan12 : List SignalRecord :=
  (List.range 12).map (fun i => mkOk ("T" ++ toString i) 10 1)

/-- A held position at entry price 1, cost basis 5000. -/
def posH : Position := ⟨1, "2024-12-01", "H", "", 5000, 0⟩

/-- Eighteen existing holdings (capacity 2 left). -/
def held18 : List (String × Position) :=
  (List.range 18).map (fun i => ("H" ++ toString i, posH))

def s18 : PortfolioState := ⟨held18, 0, 90000, false⟩

/-- The 18 held instruments still qualify; four new candidates carry rank
scores [0.05, 0.08, 0.03, 0.08] in scan order. -/
def scan22 : List SignalRecord :=
  (List.range 18).map (fun i => mkOk ("H" ++ toString i) 1 1) ++
  [mkOk "N1" 1 (5/100), mkOk "N2" 1 (8/100), mkOk "N3" 1 (3/100), mkOk "N4" 1 (8/100)]

/-- Ten qualifying candidates at close 100 (period 1 of the replay example). -/
def scanP1 : List SignalRecord :=
  (List.range 10).map (fun i => mkOk ("S" ++ toString i) 100 1)

def chain1 : RunResult := run_portfolio initialState scanP1 "2025-01-03" [] mtOn

/-- Period 2, variant A: all ten closes unchanged at 100. -/
def scanP2A : List SignalRecord :=
  (List.range 10).map (fun i => mkOk ("S" ++ toString i) 100 1)

/-- Period 2, variant B: all ten closes doubled to 200. -/
def scanP2B : List SignalRecord :=
  (List.range 10).map (fun i => mkOk ("S" ++ toString i) 200 1)

def chainA : RunResult := run_portfolio chain1.state scanP2A "2025-01-10" chain1.trades mtOn

def chainB : RunResult := run_portfolio chain1.state scanP2B "2025-01-10" chain1.trades mtOn

/-- A scan whose only record has a present nonzero close but a non-ok status. -/
def scanC6 : List SignalRecord :=
  [{ ticker := "AAA", name := "AAA", region := "",
     weekly_close := some 50, status := "insufficient_history" }]

def posC6 : Position := ⟨100, "2024-01-05", "AAA", "", 1000, 0⟩

/-- One holding, used for the gate-liquidation witness. -/
def posA : Position := ⟨10, "2024-12-01", "AAA", "", 1000, 0⟩

def sOne : PortfolioState := ⟨[("AAA", posA)], 1000, 2000, false⟩

/-- "AAA" qualifying alongside nine other qualifying names (gate stays off). -/
def scanC3 : List SignalRecord :=
  mkOk "AAA" 10 1 :: (List.range 9).map (fun i => mkOk ("Q" ++ toString i) 10 1)

def sAAA : PortfolioState := ⟨[("AAA", posA)], 0, 1000, false⟩

/-- A holding whose instrument is absent from `scan12` (sold signal-off). -/
def posOld : Position := ⟨100, "2024-11-01", "Old", "", 10000, 0⟩

def sOld : PortfolioState := ⟨[("OLD", posOld)], 0, 10000, false⟩

/-- The SELL row the engine writes for that holding. -/
def trOldSell : TradeRecord := mkSellRecord scan12 "2025-01-03" "signal_off" ("OLD", posOld)

-- ── Witnesses and counterexamples ────────────────────────────────────────────

section

attribute [local semireducible] Rat.add Rat.mul Rat.sub Rat.inv Rat.ofScientific

/-- Witness for C2: one holding, an empty scan (qualifying count 0 < 10),
risk-on regime — the gate liquidates everything. -/
theorem risk_gate_full_liquidation_w :
    (run_portfolio sOne [] "2025-01-03" [] mtOn).state.holdings = [] ∧
    (run_portfolio sOne [] "2025-01-03" [] mtOn).state.in_cash = true ∧
    (run_portfolio sOne [] "2025-01-03" [] mtOn).state.nav =
      (run_portfolio sOne [] "2025-01-03" [] mtOn).state.cash ∧
    (run_portfolio sOne [] "2025-01-03" [] mtOn).trades =
      [] ++ (toSellOf sOne []).map (mkSellRecord [] "2025-01-03" "signal_off") ++
        (holdings2Of sOne []).map (mkSellRecord [] "2025-01-03"
          ("cash_rule_" ++ String.intercalate "+" (gateList (q_countOf []) mtOn))) ∧
    (∀ tr ∈ (run_portfolio sOne [] "2025-01-03" [] mtOn).trades,
      tr ∈ ([] : List TradeRecord) ∨ tr.action = "SELL") :=
  risk_gate_full_liquidation sOne [] "2025-01-03" [] mtOn (Or.inl (by decide))

/-- Witness for C3, plus the concrete fact that the qualifying held position
survives unchanged. -/
theorem position_exit_iff_w :
    (((qMem scanC3 "AAA" = true ∧ gateList (q_countOf scanC3) mtOn = []) →
      ("AAA", posA) ∈ (run_portfolio sAAA scanC3 "2025-01-03" [] mtOn).state.holdings) ∧
    ((qMem scanC3 "AAA" = false ∨ gateList (q_countOf scanC3) mtOn ≠ []) →
      ∀ p', ("AAA", p') ∉ (run_portfolio sAAA scanC3 "2025-01-03" [] mtOn).state.holdings)) ∧
    ("AAA", posA) ∈ (run_portfolio sAAA scanC3 "2025-01-03" [] mtOn).state.holdings :=
  ⟨position_exit_iff sAAA scanC3 "2025-01-03" [] mtOn "AAA" posA
      (List.mem_singleton.2 rfl),
   by decide⟩

/-- Witness for C9: an empty benchmark series is a fault; the regime is
risk-off and the engine ends the pass in cash. -/
theorem regime_fault_risk_off_w :
    (get_market_trend (Except.ok ([] : List ℚ))).risk_on = false ∧
    (run_portfolio initialState [] "2025-01-03" []
      (get_market_trend (Except.ok ([] : List ℚ)))).state.in_cash = true ∧
    (run_portfolio initialState [] "2025-01-03" []
      (get_market_trend (Except.ok ([] : List ℚ)))).state.holdings = [] ∧
    (run_portfolio initialState [] "2025-01-03" []
      (get_market_trend (Except.ok ([] : List ℚ)))).state.nav =
      (run_portfolio initialState [] "2025-01-03" []
        (get_market_trend (Except.ok ([] : List ℚ)))).state.cash :=
  regime_fault_risk_off (Except.ok []) initialState [] "2025-01-03" [] (by decide)

/-- Counterexample for C4 as stated: from NAV 100,000 with 12 candidates the
stored cost basis is `roundTo 4 (100000/12) = 8333.3333`, which is not equal
to `100000/12`. -/
theorem entry_cost_basis_cex :
    ((run_portfolio initialState scan12 "2025-01-03" [] mtOn).state.holdings.head?.map
      (fun x => x.2.cost_basis)) = some (83333333 / 10000) ∧
    (83333333 / 10000 : ℚ) ≠ STARTING_NAV / 12 := by
  exact ⟨by decide, by decide⟩

/-- Witness for the amended C4 at the spec's 12-candidate scenario: all twelve
filled at `roundTo 4 (100000/12)` each, leaving cash `0.0004`. -/
theorem entry_cost_basis_rounded_w :
    gateList (q_countOf scan12) mtOn = [] ∧
    slotsOf scan12 (holdings2Of initialState scan12) = 12 ∧
    (∃ news,
      (run_portfolio initialState scan12 "2025-01-03" [] mtOn).state.holdings =
        holdings2Of initialState scan12 ++ news ∧
      news.length = slotsOf scan12 (holdings2Of initialState scan12) ∧
      (∀ x ∈ news, x.2.cost_basis =
        roundTo 4 (navAfterSells initialState scan12 /
          (((holdings2Of initialState scan12).length +
            slotsOf scan12 (holdings2Of initialState scan12) : ℕ) : ℚ))) ∧
      (∀ x ∈ news, ∀ y ∈ news, x.2.cost_basis = y.2.cost_basis)) ∧
    (run_portfolio initialState scan12 "2025-01-03" [] mtOn).state.cash = 1 / 2500 ∧
    roundTo 4 (STARTING_NAV / 12) = 83333333 / 10000 :=
  ⟨by decide, by decide,
   entry_cost_basis_rounded initialState scan12 "2025-01-03" [] mtOn
     (by decide) (by decide) (by decide),
   by decide, by decide⟩

/-- Witness for C5 at the spec's tie-break example: candidate rank scores
[0.05, 0.08, 0.03, 0.08] with capacity 2 fill the two 0.08 names, the
earlier-scanned one first. -/
theorem entry_ranking_stable_w :
    (List.Perm (sortByRankDesc (candidatesOf scan22 (holdings2Of s18 scan22)))
      (candidatesOf scan22 (holdings2Of s18 scan22)) ∧
    (sortByRankDesc (candidatesOf scan22 (holdings2Of s18 scan22))).Pairwise
      (fun a b => rankKey b ≤ rankKey a) ∧
    (∀ a b, List.Sublist [a, b] (candidatesOf scan22 (holdings2Of s18 scan22)) →
      rankKey a = rankKey b →
      List.Sublist [a, b] (sortByRankDesc (candidatesOf scan22 (holdings2Of s18 scan22)))) ∧
    ((scan22.map SignalRecord.ticker).Nodup →
      qualifyingList scan22 = scan22.filter qualPred) ∧
    (run_portfolio s18 scan22 "2025-01-10" [] mtOn).trades =
      [] ++ (toSellOf s18 scan22).map (mkSellRecord scan22 "2025-01-10" "signal_off") ++
        buyRecsFrom "2025-01-10" (candidatesOf scan22 (holdings2Of s18 scan22)).length 0
          (filledOf scan22 (holdings2Of s18 scan22))) ∧
    ((candidatesOf scan22 (holdings2Of s18 scan22)).map rankKey =
      [5/100, 8/100, 3/100, 8/100]) ∧
    slotsOf scan22 (holdings2Of s18 scan22) = 2 ∧
    ((run_portfolio s18 scan22 "2025-01-10" [] mtOn).trades.map (fun tr => tr.ticker)) =
      ["N2", "N4"] :=
  ⟨entry_ranking_stable s18 scan22 "2025-01-10" [] mtOn
      (by decide) (by decide) (by decide),
   by decide, by decide, by decide⟩

/-- Counterexample for C7 as stated: two two-period histories from the initial
state produce identical trade logs but different final states (the period-2
closes never reach the log, and the BUY rows all carry an empty cost-basis
cell), so no replay of the log can reproduce the final state. -/
theorem trade_log_replay_cex :
    chainA.trades = chainB.trades ∧
    chainA.state ≠ chainB.state ∧
    chainA.state.nav = 100000 ∧
    chainB.state.nav = 200000 ∧
    chain1.trades.map (fun tr => tr.cost_basis) = List.replicate 10 none :=
  ⟨by decide, by decide, by decide, by decide, by decide⟩

/-- Witness for the amended C7: the engine's SELL row for the signal-off
holding carries its originating entry price in the cost-basis column. -/
theorem trade_rows_content_w :
    (trOldSell.action = "BUY" ∧ trOldSell.cost_basis = none ∧
      trOldSell.realized_pnl_pct = none) ∨
    (trOldSell.action = "SELL" ∧ ∃ x, x ∈ sOld.holdings ∧ trOldSell.ticker = x.1 ∧
      trOldSell.cost_basis = some (roundTo 4 x.2.entry_price)) :=
  trade_rows_content sOld scan12 "2025-01-03" [] mtOn trOldSell (by decide)

/-- Counterexample for C6 as stated: a held instrument whose scan record has
status `insufficient_history` but a present nonzero close is marked at that
close (50), not at its entry price as the claim requires, so the position
contributes 500 and not its cost basis 1000. -/
theorem mark_price_status_cex :
    currentPx scanC6 "AAA" 100 = 50 ∧
    claimCurrentPx scanC6 "AAA" 100 = 100 ∧
    mark_to_market ⟨[("AAA", posC6)], 0, 0, false⟩ scanC6 = 500 ∧
    ((500 : ℚ) ≠ 0 + posC6.cost_basis) :=
  ⟨by decide, by decide, by decide, by decide⟩

/-- Witness for the amended C6: an instrument absent from the scan falls back
to its entry price and contributes exactly its cost basis. -/
theorem mark_price_rule_w :
    currentPx [] "XYZ" 100 = 100 ∧ currentPx [] "XYZ" 100 / 100 * 7 = 7 :=
  ⟨(mark_price_rule [] "XYZ" 100 7).2.2.2.1 rfl,
   (mark_price_rule [] "XYZ" 100 7).2.2.2.2 (by norm_num)
     ((mark_price_rule [] "XYZ" 100 7).2.2.2.1 rfl)⟩

/-- Witness for C8: zero observations give `no_data`; a single observation
gives `insufficient_history` carrying the rounded latest close and no
oscillator fields. -/
theorem signal_history_contract_w :
    (get_stock_data "TT" "TT" "" ([] : List ℚ)).status = "no_data" ∧
    (get_stock_data "TT" "TT" "" [5]).status = "insufficient_history" ∧
    (get_stock_data "TT" "TT" "" [5]).weekly_close = some 5 ∧
    (get_stock_data "TT" "TT" "" [5]).macd = none := by
  have h0 := (signal_history_contract "TT" "TT" "" []).1 rfl
  have h1 := (signal_history_contract "TT" "TT" "" [5]).2 (by decide) (by decide)
  exact ⟨h0, h1.1, by decide, h1.2.2.2.2.1⟩

set_option maxRecDepth 4000 in
/-- Witness for C10 on a flat 35-week series: status ok and the qualifies flag
agrees with the positivity of the (zero) oscillator and histogram. -/
theorem signal_qualifies_iff_w :
    (get_stock_data "TT" "TT" "" (List.replicate 35 1)).status = "ok" ∧
    ((get_stock_data "TT" "TT" "" (List.replicate 35 1)).momentum = true ↔
      (0 < roundTo 4 (last0 (macdListOf (List.replicate 35 1))) ∧
       0 < roundTo 4 (last0 (histListOf (List.replicate 35 1))))) ∧
    (get_stock_data "TT" "TT" "" (List.replicate 35 1)).momentum = false := by
  have h := signal_qualifies_iff "TT" "TT" "" (List.replicate 35 1) (by decide)
  exact ⟨h.1, h.2.2.2, by decide⟩

end
